import Mathlib

/-!
Shallow embedding of `playlist_audio_feature_rankings.py`: a script that drains
the user's playlists from a cursor-paginated API, fetches audio features for
each playlist's tracks in batches of 100, averages nine fixed numeric
descriptors per playlist (rounded to two decimals), and prints a descending
top-N ranking per descriptor.  Python dictionaries are modelled as insertion-
ordered association lists, Python exceptions as `Except`, and floating-point
numbers as exact rationals.
-/

namespace Spotify

/-- Python exceptions that the script can raise while averaging. -/
inductive PyError where
  | zeroDivisionError
  | keyError
deriving DecidableEq, Repr

/-- Modelled from the spec: `audio_feature_names` is imported from a
`constants` module absent from the sources; the spec fixes it as the closed
enumeration of the nine descriptors. -/
def audio_feature_names : List String :=
  ["danceability", "energy", "loudness", "speechiness", "acousticness",
   "instrumentalness", "liveness", "valence", "tempo"]

/-- Round to the nearest integer, halves to even — the semantics of Python's
built-in `round`. -/
def roundHalfEven (x : ℚ) : ℤ :=
  let f := ⌊x⌋
  let r := x - (f : ℚ)
  if r < 1 / 2 then f
  else if 1 / 2 < r then f + 1
  else if f % 2 = 0 then f else f + 1

/-- `round(x, 2)` from the source: round to two decimal places. -/
def round2 (x : ℚ) : ℚ := (roundHalfEven (x * 100) : ℚ) / 100

/-- The dictionary literal `cumulative_audio_features` initialising every
descriptor's running total to zero, in source order. -/
def cumulative_audio_features_init : List (String × ℚ) :=
  [("danceability", 0), ("energy", 0), ("loudness", 0), ("speechiness", 0),
   ("acousticness", 0), ("instrumentalness", 0), ("liveness", 0),
   ("valence", 0), ("tempo", 0)]

/-- The inner `for category in cumulative_audio_features` loop: adds
`audio_feature[category]` to each running total, raising `KeyError` when the
record lacks a descriptor. -/
def addFeature (f : String → Option ℚ) :
    List (String × ℚ) → Except PyError (List (String × ℚ))
  | [] => .ok []
  | (c, t) :: rest =>
    match f c with
    | none => .error .keyError
    | some v => (addFeature f rest).map (fun r => (c, t + v) :: r)

/-- `average_audio_features`: accumulates every descriptor's total across the
records, then divides by the record count and rounds to two decimals; an empty
input reaches `total/num_tracks` with `num_tracks = 0` and raises
`ZeroDivisionError`. -/
def average_audio_features (audio_features : List (String → Option ℚ)) :
    Except PyError (List (String × ℚ)) := do
  let cum ← audio_features.foldlM (fun c f => addFeature f c)
    cumulative_audio_features_init
  let num_tracks := audio_features.length
  if num_tracks = 0 then
    .error .zeroDivisionError
  else
    .ok (cum.map (fun p => (p.1, round2 (p.2 / num_tracks))))

/-- A playlist object as returned by the API: id, display name,
collaborative flag. -/
structure PlaylistItem where
  id : String
  name : String
  collaborative : Bool
deriving DecidableEq, Repr

/-- One page of a cursor-paginated result set: its items and the cursor of
the next page, if any. -/
structure Page (α : Type) where
  items : List α
  next : Option Nat

/-- The paginated server holding the given pages in order: page `i` carries
`pages[i]` and points to page `i+1` unless it is the last. -/
def mkServer (pages : List (List α)) : Nat → Page α :=
  fun i => ⟨pages.getD i [], if i + 1 < pages.length then some (i + 1) else none⟩

/-- The `while results['next']: results = sp.next(results)` loop shared by
`get_playlists` and `get_playlist_tracks`: accumulates every page's items and
records the cursors fetched; fuel bounds the iterations. -/
def drainLoop (fetch : Nat → Page α) : Nat → Page α → List α × List Nat
  | 0, r => (r.items, [])
  | fuel + 1, r =>
    match r.next with
    | none => (r.items, [])
    | some c =>
      let rest := drainLoop fetch fuel (fetch c)
      (r.items ++ rest.1, c :: rest.2)

/-- Drains a whole well-formed paginated result set, starting from page 0;
`pages.length` fuel always suffices. -/
def drainPages (pages : List (List α)) : List α × List Nat :=
  drainLoop (mkServer pages) pages.length (mkServer pages 0)

/-- Assignment `d[k] = v` on an insertion-ordered Python dictionary: an
existing key keeps its position and gets the new value, a fresh key is
appended. -/
def dictInsert (d : List (String × β)) (k : String) (v : β) :
    List (String × β) :=
  if d.any (fun p => p.1 = k) then
    d.map (fun p => if p.1 = k then (k, v) else p)
  else d ++ [(k, v)]

/-- Lookup `d[k]` on the dictionary model. -/
def dictLookup (d : List (String × β)) (k : String) : Option β :=
  (d.find? (fun p => p.1 = k)).map (fun p => p.2)

/-- `get_playlists`: drains all playlist pages, then builds the name → id
dictionary, keeping an item when `item['collaborative'] or not collab_only`
holds. -/
def get_playlists (pages : List (List PlaylistItem)) (collab_only : Bool) :
    List (String × String) :=
  let playlists := (drainPages pages).1
  playlists.foldl
    (fun d item =>
      if item.collaborative || !collab_only then dictInsert d item.name item.id
      else d)
    []

/-- The `track` object inside a playlist item; its id is `None` for local or
unavailable tracks. -/
structure TrackObj where
  id : Option String
deriving DecidableEq, Repr

/-- One item of a playlist's track listing. -/
structure TrackItem where
  track : TrackObj
deriving DecidableEq, Repr

/-- `get_playlist_tracks`: drains all track pages of a playlist in server
order. -/
def get_playlist_tracks (pages : List (List TrackItem)) : List TrackItem :=
  (drainPages pages).1

/-- `filter(None, ids)`: Python keeps the truthy values, dropping both `None`
and the empty string. -/
def pyFilterNone (ids : List (Option String)) : List String :=
  ids.filterMap (fun o =>
    match o with
    | none => none
    | some s => if s = "" then none else some s)

/-- The `while num_tracks_left > 0` loop of `get_audio_features`: slices off
100 ids at a time and concatenates the per-batch fetch results; fuel bounds
the iterations and `ids.length` always suffices. -/
def fetchBatches (fetch : List String → List (String → Option ℚ)) :
    Nat → List String → List (String → Option ℚ)
  | 0, _ => []
  | _ + 1, [] => []
  | fuel + 1, ids => fetch (ids.take 100) ++ fetchBatches fetch fuel (ids.drop 100)

/-- The successive slices `ids[start:start+100]` that the batching loop
passes to `sp.audio_features`, in call order. -/
def batchChunks : Nat → List String → List (List String)
  | 0, _ => []
  | _ + 1, [] => []
  | fuel + 1, ids => ids.take 100 :: batchChunks fuel (ids.drop 100)

/-- `get_audio_features`: filters out falsy track ids, then fetches features
in batches of at most 100. -/
def get_audio_features (fetch : List String → List (String → Option ℚ))
    (tracks : List TrackItem) : List (String → Option ℚ) :=
  let track_ids := pyFilterNone (tracks.map (fun t => t.track.id))
  fetchBatches fetch track_ids.length track_ids

/-- `sorted(playlists_audio_features.items(), key=lambda x: x[1][category],
reverse=True)`: Python's sort is stable, and `reverse=True` yields descending
order with ties kept in input order.  Averaged vectors are modelled as total
maps since every averaged dictionary carries all nine descriptors. -/
def sorted_playlists (category : String)
    (pl : List (String × (String → ℚ))) : List (String × (String → ℚ)) :=
  List.mergeSort pl (fun a b => decide (b.2 category ≤ a.2 category))

/-- The block `print_rankings` prints for one descriptor: the name/value lines
of the top `top_amount` playlists after the descending sort. -/
def print_rankings (category : String) (pl : List (String × (String → ℚ)))
    (top_amount : Nat) : List (String × ℚ) :=
  ((sorted_playlists category pl).take top_amount).map
    (fun p => (p.1, p.2 category))

/-- `main` up to the report: builds `playlist_audio_features` by looping over
the playlists, with no exception handling, so the first averaging error aborts
the whole run. -/
def mainPipeline (playlistPages : List (List PlaylistItem))
    (trackPagesOf : String → List (List TrackItem))
    (fetch : List String → List (String → Option ℚ)) :
    Except PyError (List (String × List (String × ℚ))) :=
  let playlists := get_playlists playlistPages false
  playlists.foldlM
    (fun acc p => do
      let tracks := get_playlist_tracks (trackPagesOf p.2)
      let audio_features := get_audio_features fetch tracks
      let avg ← average_audio_features audio_features
      pure (dictInsert acc p.1 avg))
    []

/-! ### Pagination lemmas -/

theorem getD_join_drop_last {α : Type} (pages : List (List α)) (i : Nat)
    (hi : i < pages.length) (hlast : ¬ i + 1 < pages.length) :
    (pages.drop i).flatten = pages.getD i [] := by
  have h1 : pages.drop i = pages[i] :: pages.drop (i + 1) :=
    List.drop_eq_getElem_cons hi
  have h2 : pages.drop (i + 1) = [] := List.drop_eq_nil_of_le (by omega)
  rw [h1, h2]
  simp [List.getD_eq_getElem?_getD, List.getElem?_eq_getElem hi]

theorem drainLoop_mkServer {α : Type} (pages : List (List α)) (fuel i : Nat)
    (hi : i < pages.length) (hf : pages.length - 1 - i ≤ fuel) :
    drainLoop (mkServer pages) fuel (mkServer pages i) =
      ((pages.drop i).flatten, List.range' (i + 1) (pages.length - 1 - i)) := by
  induction fuel generalizing i with
  | zero =>
    have hlast : ¬ i + 1 < pages.length := by omega
    have h0 : pages.length - 1 - i = 0 := by omega
    rw [h0, getD_join_drop_last pages i hi hlast]
    simp [drainLoop, mkServer]
  | succ fuel ih =>
    by_cases hlt : i + 1 < pages.length
    · have hstep : drainLoop (mkServer pages) (fuel + 1) (mkServer pages i) =
          ((mkServer pages i).items ++
            (drainLoop (mkServer pages) fuel (mkServer pages (i + 1))).1,
           (i + 1) :: (drainLoop (mkServer pages) fuel (mkServer pages (i + 1))).2) := by
        simp only [drainLoop, mkServer, if_pos hlt]
      rw [hstep, ih (i + 1) hlt (by omega)]
      have hitems : (mkServer pages i).items ++ (pages.drop (i + 1)).flatten =
          (pages.drop i).flatten := by
        rw [List.drop_eq_getElem_cons hi, List.flatten_cons]
        simp [mkServer, List.getD_eq_getElem?_getD, List.getElem?_eq_getElem hi]
      have hn : pages.length - 1 - i = (pages.length - 1 - (i + 1)) + 1 := by omega
      rw [hn, List.range'_succ]
      simp [hitems]
    · have hlast : ¬ i + 1 < pages.length := hlt
      have h0 : pages.length - 1 - i = 0 := by omega
      rw [h0, getD_join_drop_last pages i hi hlast]
      simp only [drainLoop, mkServer, if_neg hlast]
      simp

/-- C7: the pagination loop shared by `get_playlists` and
`get_playlist_tracks` returns the concatenation of all pages' items in
server order, fetches cursors `1, …, n-1` — exactly once per non-final
page — and never re-fetches a consumed page. -/
theorem pagination_concatenates {α : Type} (pages : List (List α))
    (h : pages ≠ []) :
    (drainPages pages).1 = pages.flatten ∧
    (drainPages pages).2 = List.range' 1 (pages.length - 1) ∧
    (drainPages pages).2.length = pages.length - 1 ∧
    (drainPages pages).2.Nodup ∧
    (∀ (tpages : List (List TrackItem)), tpages ≠ [] →
      get_playlist_tracks tpages = tpages.flatten) := by
  have hpos : 0 < pages.length := List.length_pos.mpr h
  have key := drainLoop_mkServer pages pages.length 0 hpos (by omega)
  unfold drainPages
  rw [key]
  refine ⟨by simp, by simp, by simp,
    (List.pairwise_lt_range' _ _).imp (fun hab => Nat.ne_of_lt hab), ?_⟩
  intro tpages ht
  have hpos2 : 0 < tpages.length := List.length_pos.mpr ht
  have key2 := drainLoop_mkServer tpages tpages.length 0 hpos2 (by omega)
  unfold get_playlist_tracks drainPages
  rw [key2]
  simp

/-- Witness for C7: a three-page sequence is drained into the five items in
order with exactly two next-page fetches. -/
theorem pagination_concatenates_witness :
    (drainPages ([[1, 2], [3], [4, 5]] : List (List Nat))).1 = [1, 2, 3, 4, 5] ∧
    (drainPages ([[1, 2], [3], [4, 5]] : List (List Nat))).2 = [1, 2] ∧
    (drainPages ([[1, 2], [3], [4, 5]] : List (List Nat))).2.length = 2 := by
  have h := pagination_concatenates ([[1, 2], [3], [4, 5]] : List (List Nat))
    (by decide)
  exact ⟨h.1.trans (by decide), h.2.1.trans (by decide), h.2.2.1.trans (by decide)⟩

/-! ### Dictionary lemmas -/

theorem find?_map_keep_keys {β : Type} (g : String × β → String × β)
    (hg : ∀ p, (g p).1 = p.1) (d : List (String × β)) (k : String) :
    (d.map g).find? (fun p => p.1 = k) = (d.find? (fun p => p.1 = k)).map g := by
  induction d with
  | nil => rfl
  | cons a d ih =>
    by_cases h : a.1 = k
    · simp [List.find?_cons, hg, h]
    · simp only [List.map_cons, List.find?_cons, hg, h]
      simpa [h] using ih

theorem dictLookup_dictInsert {β : Type} (d : List (String × β))
    (k' k : String) (v : β) :
    dictLookup (dictInsert d k' v) k =
      if k = k' then some v else dictLookup d k := by
  unfold dictInsert dictLookup
  by_cases hmem : d.any (fun p => p.1 = k') = true
  · rw [if_pos hmem]
    rw [find?_map_keep_keys (fun p => if p.1 = k' then (k', v) else p)
      (by intro p; by_cases h : p.1 = k' <;> simp [h]) d k]
    by_cases hk : k = k'
    · subst hk
      obtain ⟨p, hp, hpk⟩ := List.any_eq_true.mp hmem
      have : (d.find? (fun p => p.1 = k)).isSome := by
        rw [List.find?_isSome]
        exact ⟨p, hp, hpk⟩
      obtain ⟨q, hq⟩ := Option.isSome_iff_exists.mp this
      have hqk : q.1 = k := by
        have := List.find?_some hq
        simpa using this
      simp [hq, hqk, if_pos]
    · rw [if_neg hk]
      cases hfind : d.find? (fun p => p.1 = k) with
      | none => simp
      | some q =>
        have hqk : q.1 = k := by
          have := List.find?_some hfind
          simpa using this
        have hqk' : ¬ q.1 = k' := by rw [hqk]; exact hk
        simp [hqk']
  · rw [if_neg hmem]
    rw [List.find?_append]
    by_cases hk : k = k'
    · subst hk
      have hnone : d.find? (fun p => p.1 = k) = none := by
        rw [List.find?_eq_none]
        intro p hp
        simp only [decide_eq_true_eq]
        intro hpk
        exact hmem (List.any_eq_true.mpr ⟨p, hp, by simp [hpk]⟩)
      simp [hnone, List.find?_cons]
    · cases hfind : d.find? (fun p => p.1 = k) with
      | none => simp [hfind, List.find?_cons, Ne.symm hk, hk]
      | some q => simp [hfind, hk]

theorem buildDict_lookup (items : List PlaylistItem) (k : String) :
    dictLookup (items.foldl (fun d i => dictInsert d i.name i.id) []) k =
      ((items.filter (fun i => i.name = k)).getLast?).map (fun i => i.id) := by
  induction items using List.reverseRecOn with
  | nil => rfl
  | append_singleton l x ih =>
    rw [List.foldl_append, List.foldl_cons, List.foldl_nil,
      dictLookup_dictInsert, List.filter_append]
    by_cases hx : x.name = k
    · rw [if_pos (by rw [hx])]
      simp [hx, List.getLast?_concat]
    · rw [if_neg (by intro h; exact hx (by rw [h]))]
      simp [hx, ih]

theorem buildDict_nodup (items : List PlaylistItem)
    (h : (items.map (fun i => i.name)).Nodup) :
    items.foldl (fun d i => dictInsert d i.name i.id) [] =
      items.map (fun i => (i.name, i.id)) := by
  induction items using List.reverseRecOn with
  | nil => rfl
  | append_singleton l x ih =>
    rw [List.map_append] at h
    have hfresh : x.name ∉ l.map (fun i => i.name) := by
      intro hmem
      have := (List.nodup_append.mp h).2.2
      exact this hmem (by simp)
    have hl : (l.map (fun i => i.name)).Nodup := (List.nodup_append.mp h).1
    rw [List.foldl_append, List.foldl_cons, List.foldl_nil, ih hl]
    unfold dictInsert
    have hany : (l.map (fun i => (i.name, i.id))).any (fun p => p.1 = x.name) = false := by
      rw [List.any_eq_false]
      intro p hp
      simp only [List.mem_map] at hp
      obtain ⟨i, hi, rfl⟩ := hp
      simp only [decide_eq_true_eq]
      intro hcontra
      exact hfresh (List.mem_map.mpr ⟨i, hi, hcontra⟩)
    rw [hany]
    simp

theorem foldl_ite_filter (items : List PlaylistItem)
    (d : List (String × String)) (pred : PlaylistItem → Bool) :
    items.foldl (fun d i => if pred i then dictInsert d i.name i.id else d) d =
      (items.filter pred).foldl (fun d i => dictInsert d i.name i.id) d := by
  induction items generalizing d with
  | nil => rfl
  | cons a items ih =>
    by_cases ha : pred a
    · simp [List.filter_cons, ha, ih]
    · simp [List.filter_cons, ha, ih]

/-- C4: `get_playlists` keeps exactly the playlists passing the
collaborative filter (`item['collaborative'] or not collab_only`), mapping
each name to its id, provided the kept names are distinct. -/
theorem get_playlists_collab_filter (pages : List (List PlaylistItem))
    (collab_only : Bool)
    (hnd : ((((drainPages pages).1).filter
      (fun i => i.collaborative || !collab_only)).map (fun i => i.name)).Nodup) :
    get_playlists pages collab_only =
      (((drainPages pages).1).filter
        (fun i => i.collaborative || !collab_only)).map (fun i => (i.name, i.id)) ∧
    (collab_only = false →
      ((drainPages pages).1).filter (fun i => i.collaborative || !collab_only) =
        (drainPages pages).1) := by
  constructor
  · unfold get_playlists
    rw [foldl_ite_filter, buildDict_nodup _ hnd]
  · intro hco
    subst hco
    simp

/-- Witness for C4: on `[{A, collab}, {B, not collab}, {C, collab}]` with
`collab_only = true` the result is exactly `{A ↦ idA, C ↦ idC}`. -/
theorem get_playlists_collab_filter_witness :
    get_playlists [[⟨"idA", "A", true⟩, ⟨"idB", "B", false⟩, ⟨"idC", "C", true⟩]]
      true = [("A", "idA"), ("C", "idC")] :=
  ((get_playlists_collab_filter
    [[⟨"idA", "A", true⟩, ⟨"idB", "B", false⟩, ⟨"idC", "C", true⟩]] true
    (by decide)).1).trans (by decide)

/-- C5: for any name, `get_playlists` maps it to the id of the *last*
playlist in fetch order with that name among those passing the filter —
the later entry silently overwrites the earlier. -/
theorem get_playlists_last_wins (pages : List (List PlaylistItem))
    (collab_only : Bool) (k : String) :
    dictLookup (get_playlists pages collab_only) k =
      ((((drainPages pages).1).filter (fun i => i.collaborative || !collab_only)).filter
        (fun i => i.name = k)).getLast?.map (fun i => i.id) := by
  unfold get_playlists
  rw [foldl_ite_filter, buildDict_lookup]

/-- C2: `average_audio_features` applied to the empty list stops with the
explicit `ZeroDivisionError` signal and never produces a numeric result. -/
theorem average_empty_is_error :
    average_audio_features [] = .error .zeroDivisionError := rfl

/-! ### Batching lemmas -/

theorem fetchBatches_eq_flatten (fetch : List String → List (String → Option ℚ)) :
    ∀ (fuel : Nat) (ids : List String),
    fetchBatches fetch fuel ids = ((batchChunks fuel ids).map fetch).flatten := by
  intro fuel
  induction fuel with
  | zero => intro ids; rfl
  | succ fuel ih =>
    intro ids
    cases ids with
    | nil => rfl
    | cons a ids => simp [fetchBatches, batchChunks, ih]

theorem batchChunks_flatten :
    ∀ (fuel : Nat) (ids : List String), ids.length ≤ fuel →
    (batchChunks fuel ids).flatten = ids := by
  intro fuel
  induction fuel with
  | zero =>
    intro ids h
    have : ids = [] := List.length_eq_zero.mp (by omega)
    subst this; rfl
  | succ fuel ih =>
    intro ids h
    cases ids with
    | nil => rfl
    | cons a ids =>
      have hlen : ((a :: ids).drop 100).length ≤ fuel := by
        simp only [List.length_drop, List.length_cons] at *
        omega
      simp only [batchChunks, List.flatten_cons]
      rw [ih _ hlen, List.take_append_drop]

theorem batchChunks_sizes :
    ∀ (fuel : Nat) (ids : List String) (b : List String),
    b ∈ batchChunks fuel ids → b ≠ [] ∧ b.length ≤ 100 := by
  intro fuel
  induction fuel with
  | zero => intro ids b h; simp [batchChunks] at h
  | succ fuel ih =>
    intro ids b h
    cases ids with
    | nil => simp [batchChunks] at h
    | cons a ids =>
      simp only [batchChunks, List.mem_cons] at h
      rcases h with rfl | h
      · refine ⟨by simp, by simp⟩
      · exact ih _ _ h

theorem batchChunks_count :
    ∀ (fuel : Nat) (ids : List String), ids.length ≤ fuel →
    (batchChunks fuel ids).length = (ids.length + 99) / 100 := by
  intro fuel
  induction fuel with
  | zero =>
    intro ids h
    have : ids = [] := List.length_eq_zero.mp (by omega)
    subst this; rfl
  | succ fuel ih =>
    intro ids h
    cases ids with
    | nil => rfl
    | cons a ids =>
      have hlen : ((a :: ids).drop 100).length ≤ fuel := by
        simp only [List.length_drop, List.length_cons] at *
        omega
      have hrec := ih _ hlen
      simp only [batchChunks, List.length_cons, hrec, List.length_drop]
      omega

theorem pyFilterNone_no_empty (l : List (Option String))
    (h : ∀ o ∈ l, o ≠ some "") : pyFilterNone l = l.reduceOption := by
  induction l with
  | nil => rfl
  | cons o l ih =>
    have hrest : ∀ o ∈ l, o ≠ some "" := fun o ho => h o (List.mem_cons_of_mem _ ho)
    cases o with
    | none => simp [pyFilterNone, List.reduceOption] at ih ⊢; exact ih hrest
    | some s =>
      have hs : s ≠ "" := by
        intro hcontra
        exact h (some s) (List.mem_cons_self _ _) (by rw [hcontra])
      simp [pyFilterNone, List.reduceOption, hs] at ih ⊢
      exact ih hrest

/-- C6: `get_audio_features` first drops the track references with a null
id, then slices the remaining ids into consecutive batches of at most 100,
issues one fetch per batch — `⌈n/100⌉` fetch calls in all — and returns the
concatenation of the per-batch results in batch order. -/
theorem get_audio_features_batching
    (fetch : List String → List (String → Option ℚ)) (tracks : List TrackItem)
    (ids : List String)
    (hemp : ∀ t ∈ tracks, t.track.id ≠ some "")
    (hids : ids = (tracks.map (fun t => t.track.id)).reduceOption) :
    get_audio_features fetch tracks =
      ((batchChunks ids.length ids).map fetch).flatten ∧
    (batchChunks ids.length ids).flatten = ids ∧
    (∀ b ∈ batchChunks ids.length ids, b ≠ [] ∧ b.length ≤ 100) ∧
    (batchChunks ids.length ids).length = (ids.length + 99) / 100 := by
  have hfil : pyFilterNone (tracks.map (fun t => t.track.id)) = ids := by
    rw [hids]
    refine pyFilterNone_no_empty _ ?_
    intro o ho
    obtain ⟨t, ht, rfl⟩ := List.mem_map.mp ho
    exact hemp t ht
  refine ⟨?_, batchChunks_flatten _ _ le_rfl, batchChunks_sizes _ _,
    batchChunks_count _ _ le_rfl⟩
  unfold get_audio_features
  rw [hfil, fetchBatches_eq_flatten]

set_option maxRecDepth 100000 in
/-- Witness for C6: 250 non-null track ids are fetched in exactly three
batches of sizes 100, 100, 50. -/
theorem get_audio_features_batching_witness :
    get_audio_features (fun ids => ids.map (fun _ _ => some 1))
      (List.replicate 250 ⟨⟨some "a"⟩⟩) =
      ((batchChunks 250 (List.replicate 250 "a")).map
        (fun ids => ids.map (fun _ _ => some 1))).flatten ∧
    (batchChunks 250 (List.replicate 250 "a")).length = 3 ∧
    (batchChunks 250 (List.replicate 250 "a")).map List.length = [100, 100, 50] := by
  have h := get_audio_features_batching (fun ids => ids.map (fun _ _ => some 1))
    (List.replicate 250 ⟨⟨some "a"⟩⟩) (List.replicate 250 "a")
    (by decide) (by decide)
  refine ⟨by simpa using h.1, (by simpa using h.2.2.2 : _ = (250 + 99) / 100), by decide⟩

theorem pyFilterNone_all_none (l : List (Option String))
    (h : ∀ o ∈ l, o = none) : pyFilterNone l = [] := by
  induction l with
  | nil => rfl
  | cons o l ih =>
    have ho : o = none := h o (List.mem_cons_self _ _)
    subst ho
    simp only [pyFilterNone, List.filterMap_cons]
    exact ih (fun o ho => h o (List.mem_cons_of_mem _ ho))

/-- C10: when every track reference has a null id (the empty list included),
`get_audio_features` slices zero batches — hence issues zero fetch calls —
and returns the empty list. -/
theorem get_audio_features_all_null
    (fetch : List String → List (String → Option ℚ)) (tracks : List TrackItem)
    (h : ∀ t ∈ tracks, t.track.id = none) :
    get_audio_features fetch tracks = [] ∧
    batchChunks (pyFilterNone (tracks.map (fun t => t.track.id))).length
      (pyFilterNone (tracks.map (fun t => t.track.id))) = [] := by
  have hfil : pyFilterNone (tracks.map (fun t => t.track.id)) = [] := by
    refine pyFilterNone_all_none _ ?_
    intro o ho
    obtain ⟨t, ht, rfl⟩ := List.mem_map.mp ho
    exact h t ht
  constructor
  · unfold get_audio_features
    rw [hfil]
    rfl
  · rw [hfil]
    rfl

/-- Witness for C10: two all-null track references produce no batch and the
empty feature list. -/
theorem get_audio_features_all_null_witness :
    get_audio_features (fun ids => ids.map (fun _ _ => some 1))
      ([⟨⟨none⟩⟩, ⟨⟨none⟩⟩] : List TrackItem) = [] ∧
    batchChunks (pyFilterNone (([⟨⟨none⟩⟩, ⟨⟨none⟩⟩] : List TrackItem).map
      (fun t => t.track.id))).length
      (pyFilterNone (([⟨⟨none⟩⟩, ⟨⟨none⟩⟩] : List TrackItem).map
        (fun t => t.track.id))) = [] :=
  get_audio_features_all_null (fun ids => ids.map (fun _ _ => some 1))
    ([⟨⟨none⟩⟩, ⟨⟨none⟩⟩] : List TrackItem) (by decide)

/-! ### Averaging lemmas -/

theorem addFeature_ok (f : String → Option ℚ) :
    ∀ (cum : List (String × ℚ)), (∀ p ∈ cum, (f p.1).isSome) →
    addFeature f cum = .ok (cum.map (fun p => (p.1, p.2 + (f p.1).getD 0))) := by
  intro cum
  induction cum with
  | nil => intro h; rfl
  | cons a rest ih =>
    intro h
    obtain ⟨c, t⟩ := a
    obtain ⟨v, hv⟩ := Option.isSome_iff_exists.mp (h (c, t) (List.mem_cons_self _ _))
    simp only [addFeature, hv]
    rw [ih (fun p hp => h p (List.mem_cons_of_mem _ hp))]
    simp [Except.map, hv]

theorem foldlM_addFeature :
    ∀ (features : List (String → Option ℚ)) (cum : List (String × ℚ)),
    (∀ f ∈ features, ∀ p ∈ cum, (f p.1).isSome) →
    features.foldlM (fun c f => addFeature f c) cum =
      .ok (cum.map (fun p =>
        (p.1, p.2 + (features.map (fun f => (f p.1).getD 0)).sum))) := by
  intro features
  induction features with
  | nil =>
    intro cum h
    simp [List.foldlM_nil, pure, Except.pure]
  | cons f fs ih =>
    intro cum h
    rw [List.foldlM_cons]
    rw [addFeature_ok f cum (fun p hp => h f (List.mem_cons_self _ _) p hp)]
    have hnew : ∀ g ∈ fs, ∀ p ∈ cum.map (fun p => (p.1, p.2 + (f p.1).getD 0)),
        (g p.1).isSome := by
      intro g hg p hp
      obtain ⟨q, hq, rfl⟩ := List.mem_map.mp hp
      exact h g (List.mem_cons_of_mem _ hg) q hq
    show fs.foldlM (fun c g => addFeature g c) _ = _
    rw [ih _ hnew]
    congr 1
    rw [List.map_map]
    simp [Function.comp, add_assoc]

/-- C1: on a non-empty list of feature records that all carry the nine
descriptors, `average_audio_features` returns, for every descriptor, the
arithmetic mean of its values rounded to two decimal places. -/
theorem average_computes_rounded_means (features : List (String → Option ℚ))
    (hne : features ≠ [])
    (hall : ∀ f ∈ features, ∀ c ∈ audio_feature_names, (f c).isSome) :
    average_audio_features features =
      .ok (audio_feature_names.map (fun c =>
        (c, round2 ((features.map (fun f => (f c).getD 0)).sum /
          (features.length : ℚ))))) := by
  have hkeys : cumulative_audio_features_init =
      audio_feature_names.map (fun c => (c, (0 : ℚ))) := rfl
  have hcum : ∀ f ∈ features, ∀ p ∈ cumulative_audio_features_init,
      (f p.1).isSome := by
    intro f hf p hp
    rw [hkeys] at hp
    obtain ⟨c, hc, rfl⟩ := List.mem_map.mp hp
    exact hall f hf c hc
  have hlen : features.length ≠ 0 := by
    simpa [List.length_eq_zero] using hne
  unfold average_audio_features
  rw [foldlM_addFeature features _ hcum]
  show (if features.length = 0 then _ else _ : Except _ _) = _
  rw [if_neg hlen, hkeys]
  simp [List.map_map, Function.comp]

/-- Witness for C1: two records valued 1 and 2 on every descriptor average
to 1.5 on every descriptor. -/
theorem average_computes_rounded_means_witness :
    average_audio_features [fun _ => some 1, fun _ => some 2] =
      .ok (audio_feature_names.map (fun c => (c, 3 / 2))) := by
  have h := average_computes_rounded_means [fun _ => some 1, fun _ => some 2]
    (by simp)
    (by
      intro f hf c hc
      simp only [List.mem_cons, List.not_mem_nil, or_false] at hf
      rcases hf with rfl | rfl <;> simp)
  refine h.trans ?_
  norm_num [round2, roundHalfEven]

theorem addFeature_keys (f : String → Option ℚ) :
    ∀ (cum cum' : List (String × ℚ)), addFeature f cum = .ok cum' →
    cum'.map Prod.fst = cum.map Prod.fst := by
  intro cum
  induction cum with
  | nil => intro cum' h; cases h; rfl
  | cons a rest ih =>
    intro cum' h
    obtain ⟨c, t⟩ := a
    simp only [addFeature] at h
    cases hv : f c with
    | none => rw [hv] at h; cases h
    | some v =>
      rw [hv] at h
      cases hrest : addFeature f rest with
      | error e => rw [hrest] at h; cases h
      | ok r =>
        rw [hrest] at h
        simp only [Except.map] at h
        cases h
        simp [ih r hrest]

theorem foldlM_addFeature_keys :
    ∀ (features : List (String → Option ℚ)) (cum cum' : List (String × ℚ)),
    features.foldlM (fun c f => addFeature f c) cum = .ok cum' →
    cum'.map Prod.fst = cum.map Prod.fst := by
  intro features
  induction features with
  | nil =>
    intro cum cum' h
    simp only [List.foldlM_nil] at h
    cases h
    rfl
  | cons f fs ih =>
    intro cum cum' h
    rw [List.foldlM_cons] at h
    cases hadd : addFeature f cum with
    | error e => rw [hadd] at h; cases h
    | ok mid =>
      rw [hadd] at h
      have hbind : fs.foldlM (fun c g => addFeature g c) mid = .ok cum' := h
      rw [ih mid cum' hbind]
      exact addFeature_keys f cum mid hadd

/-- C9: the descriptors accumulated and averaged by
`average_audio_features` are exactly the nine ranked by `print_rankings`
(which iterates `audio_feature_names`): the initial totals dictionary has
precisely those keys, and every successful averaging result carries
precisely those keys, in the same order. -/
theorem descriptor_sets_agree :
    cumulative_audio_features_init.map Prod.fst = audio_feature_names ∧
    ∀ (features : List (String → Option ℚ)) (result : List (String × ℚ)),
      average_audio_features features = .ok result →
      result.map Prod.fst = audio_feature_names := by
  refine ⟨rfl, ?_⟩
  intro features result h
  unfold average_audio_features at h
  cases hfold : features.foldlM (fun c f => addFeature f c)
      cumulative_audio_features_init with
  | error e => rw [hfold] at h; cases h
  | ok cum =>
    rw [hfold] at h
    simp only [bind, Except.bind] at h
    by_cases hlen : features.length = 0
    · rw [if_pos hlen] at h; cases h
    · rw [if_neg hlen] at h
      cases h
      rw [List.map_map]
      have : Prod.fst ∘ (fun p : String × ℚ =>
          (p.1, round2 (p.2 / features.length))) = Prod.fst := rfl
      rw [this, foldlM_addFeature_keys features _ cum hfold]
      rfl

/-- Witness for C9: a concrete successful averaging result has exactly the
nine descriptor keys. -/
theorem descriptor_sets_agree_witness :
    (audio_feature_names.map (fun c => (c, (2 : ℚ)))).map Prod.fst =
      audio_feature_names := by
  have hcomp : average_audio_features [fun _ => some 2] =
      .ok (audio_feature_names.map (fun c => (c, (2 : ℚ)))) := by
    simp only [average_audio_features, cumulative_audio_features_init,
      audio_feature_names, List.foldlM_cons, List.foldlM_nil, addFeature,
      bind, Except.bind, pure, Except.pure, Except.map, List.map_cons,
      List.map_nil, List.length_cons, List.length_nil]
    norm_num [round2, roundHalfEven]
  exact descriptor_sets_agree.2 [fun _ => some 2] _ hcomp

/-! ### Ranking -/

/-- C8: for every descriptor, the ranking block sorts the playlists by that
descriptor's value in descending order; playlists with equal values keep the
input mapping's iteration order (stable sort, no secondary key), and the
printed block is the top `top_amount` of that ordering. -/
theorem print_rankings_stable_desc (category : String)
    (pl : List (String × (String → ℚ))) (top_amount : Nat) :
    (sorted_playlists category pl).Pairwise
      (fun a b => b.2 category ≤ a.2 category) ∧
    List.Perm (sorted_playlists category pl) pl ∧
    (∀ v : ℚ, (sorted_playlists category pl).filter
        (fun p => p.2 category = v) =
      pl.filter (fun p => p.2 category = v)) ∧
    print_rankings category pl top_amount =
      ((sorted_playlists category pl).take top_amount).map
        (fun p => (p.1, p.2 category)) := by
  have htrans : ∀ (a b c : String × (String → ℚ)),
      (fun a b => decide (b.2 category ≤ a.2 category)) a b = true →
      (fun a b => decide (b.2 category ≤ a.2 category)) b c = true →
      (fun a b => decide (b.2 category ≤ a.2 category)) a c = true := by
    intro a b c hab hbc
    simp only [decide_eq_true_eq] at *
    exact le_trans hbc hab
  have htotal : ∀ (a b : String × (String → ℚ)),
      ((fun a b => decide (b.2 category ≤ a.2 category)) a b ||
       (fun a b => decide (b.2 category ≤ a.2 category)) b a) = true := by
    intro a b
    simp only [Bool.or_eq_true, decide_eq_true_eq]
    exact le_total (b.2 category) (a.2 category)
  refine ⟨?_, List.mergeSort_perm pl _, ?_, rfl⟩
  · exact (List.sorted_mergeSort htrans htotal pl).imp
      (fun h => of_decide_eq_true h)
  · intro v
    have hfilsub : List.Sublist (pl.filter (fun p => p.2 category = v))
        (sorted_playlists category pl) := by
      refine List.sublist_mergeSort htrans htotal ?_ (List.filter_sublist pl)
      refine List.pairwise_of_forall_mem_list ?_
      intro a ha b hb
      have hav : a.2 category = v := by
        have := List.of_mem_filter ha
        simpa using this
      have hbv : b.2 category = v := by
        have := List.of_mem_filter hb
        simpa using this
      simp [hav, hbv]
    have hperm : List.Perm ((sorted_playlists category pl).filter
        (fun p => p.2 category = v)) (pl.filter (fun p => p.2 category = v)) :=
      (List.mergeSort_perm pl _).filter _
    have hsub2 : List.Sublist (pl.filter (fun p => p.2 category = v))
        ((sorted_playlists category pl).filter (fun p => p.2 category = v)) := by
      have := hfilsub.filter (fun p => decide (p.2 category = v))
      rw [List.filter_filter] at this
      simpa only [Bool.and_self] using this
    exact (hsub2.eq_of_length hperm.length_eq.symm).symm

/-! ### Main pipeline -/

/-- C3 fails on the code: `main` has no exception handling, so when the
first playlist has no feature-bearing tracks the `ZeroDivisionError` from
`average_audio_features` aborts the entire run — no diagnostic, and the
healthy second playlist is also lost from the report. -/
theorem main_aborts_on_failing_playlist :
    mainPipeline [[⟨"id1", "Empty Playlist", false⟩, ⟨"id2", "Good Playlist", false⟩]]
      (fun pid => if pid = "id2" then [[⟨⟨some "t1"⟩⟩]] else [[]])
      (fun ids => ids.map (fun _ _ => some 1)) = .error .zeroDivisionError := rfl

end Spotify
